import Mathlib

/-!
Shallow embedding of `src/frontend/public/js/relayer.js` (CipherPayroll).

The file models the five client-side operations of the relayer module —
session initialization (`initRelayer`), address normalization
(`addressVariants`), encrypted-input building (`encrypt64For`), and the two
decrypt paths (`userDecrypt`, `publicDecrypt`) — together with their
collaborators (wallet provider, ethers `getAddress`, relayer SDK backend),
which are passed in as explicit parameters.  JavaScript exceptions are
modelled with `Except String` where the `String` is the thrown value or the
error message; JS string truthiness is the test against `""`; the nullish
operators `??` and `||` are modelled explicitly where they occur.
-/

namespace Relayer

/-- JS `a || b` on strings used as error values: `b` when `a` is falsy
(`""`). -/
def jsOrString (a b : String) : String := if a = "" then b else a

/-- JS `a || b` where `a : Option String` models a possibly-undefined string
field: falls through to `b` when `a` is `undefined` or `""`. -/
def jsOrField (a b : Option String) : Option String :=
  match a with
  | some s => if s = "" then b else some s
  | none => b

/-- JS `a ?? b` (nullish coalescing) on possibly-undefined values. -/
def jsCoalesce (a b : Option Int) : Option Int :=
  match a with
  | some v => some v
  | none => b

/-! ## Address normalizer (`addressVariants`, relayer.js lines 46-56) -/

/-- `raw.replace of the U+200B global regex`: removes every zero-width-space character
(U+200B), the one zero-width character the source strips. -/
def stripZeroWidth (s : String) : String :=
  String.mk (s.data.filter (fun c => c ≠ '\u200b'))

/-- The JS `trim()` whitespace class (ECMAScript WhiteSpace and
LineTerminator code points, restricted to the ones below U+3000). -/
def isJsSpace (c : Char) : Bool :=
  c == ' ' || c == '\t' || c == '\n' || c == '\r' || c == '\u000B' ||
  c == '\u000C' || c == '\u00A0' || c == '\uFEFF' || c == '\u2028' ||
  c == '\u2029'

/-- Drops the characters satisfying `p` from both ends of a list. -/
def trimEnds (p : Char → Bool) (l : List Char) : List Char :=
  ((l.dropWhile p).reverse.dropWhile p).reverse

/-- `s.trim()`. -/
def jsTrim (s : String) : String := String.mk (trimEnds isJsSpace s.data)

/-- `s.toLowerCase()`: character-wise lowering (the inputs of interest are
ASCII, where JS `toLowerCase` agrees with `Char.toLower`). -/
def jsToLower (s : String) : String := String.mk (s.data.map Char.toLower)

/-- `String(a ?? "").replace of the U+200B global regex, then .trim()` —
the `raw` local of `addressVariants`. -/
def rawOf (a : String) : String := jsTrim (stripZeroWidth a)

/-- Character class `[0-9a-f]`. -/
def isHexDigitLower (c : Char) : Bool :=
  ('0' ≤ c && c ≤ '9') || ('a' ≤ c && c ≤ 'f')

/-- Character class `[0-9a-fA-F]`. -/
def isHexDigitMixed (c : Char) : Bool :=
  isHexDigitLower c || ('A' ≤ c && c ≤ 'F')

/-- The anchored regex over exactly two leading characters `0x` and forty
digits of the class `p`. -/
def matchesAddr (p : Char → Bool) (s : String) : Bool :=
  match s.data with
  | c0 :: c1 :: rest => c0 == '0' && c1 == 'x' && rest.length == 40 && rest.all p
  | _ => false

/-- The regex `/^0x[0-9a-fA-F]{40}$/`. -/
def matchesMixed (s : String) : Bool := matchesAddr isHexDigitMixed s

/-- The regex `/^0x[0-9a-f]{40}$/`. -/
def matchesLower (s : String) : Bool := matchesAddr isHexDigitLower s

/-- Auxiliary recursion for `jsSetDedup`, carrying the set of elements
already emitted. -/
def jsSetDedupAux (seen : List String) : List String → List String
  | [] => []
  | x :: xs =>
    if x ∈ seen then jsSetDedupAux seen xs
    else x :: jsSetDedupAux (x :: seen) xs

/-- `[...new Set(out)]`: removes duplicates keeping the first occurrence,
preserving insertion order. -/
def jsSetDedup (l : List String) : List String := jsSetDedupAux [] l

/-- The ethers collaborator: `none` models `window.ethers?.getAddress`
being absent; `some f` models its presence, where `f raw = none` models
`getAddress(raw)` throwing and `f raw = some cs` a successful checksum
canonicalization. -/
abbrev EthersEnv : Type := Option (String → Option String)

/-- The `try { ... } catch {}` block of `addressVariants` (lines 49-52): the
checksummed candidate pushed onto `out`, if any.  `cs` is `getAddress(raw)`
when the capability is present (skipped silently when it throws) and `raw`
itself otherwise, pushed only when it passes `/^0x[0-9a-fA-F]{40}$/`. -/
def csCandOf (eth : EthersEnv) (a : String) : List String :=
  match eth with
  | some getAddress =>
    match getAddress (rawOf a) with
    | some cs => if matchesMixed cs then [cs] else []
    | none => []
  | none => if matchesMixed (rawOf a) then [rawOf a] else []

/-- `addressVariants(a)` (relayer.js lines 46-56): candidate list of
checksummed and/or lowercase forms, pattern-validated and deduplicated. -/
def addressVariants (eth : EthersEnv) (a : String) : List String :=
  jsSetDedup (csCandOf eth a ++
    (if matchesLower (jsToLower (rawOf a)) then [jsToLower (rawOf a)] else []))

/-- `addressVariants(contractAddress)[0] || contractAddress`
(relayer.js line 144): first candidate when present and truthy, raw string
otherwise. -/
def resolveCa (eth : EthersEnv) (a : String) : String :=
  match (addressVariants eth a).head? with
  | some c => if c = "" then a else c
  | none => a

/-! ## Wallet account resolution (`ensureUserAddress`, lines 58-65) -/

/-- The wallet provider: `none` models `window.ethereum` missing; `some accs`
the account list answered by `eth_accounts`. -/
abbrev WalletEnv : Type := Option (List String)

/-- `ensureUserAddress(userAddress)` (relayer.js lines 58-65). -/
def ensureUserAddress (wallet : WalletEnv) (userAddress : Option String) :
    Except String String :=
  let raw := jsTrim (userAddress.getD "")
  if raw ≠ "" then .ok raw
  else
    match wallet with
    | none => .error "MetaMask not found"
    | some accs =>
      match accs.head? with
      | none => .error "No connected account"
      | some a => if a = "" then .error "No connected account" else .ok a

/-! ## Encrypted-input builder (`encrypt64For` and helpers, lines 67-135) -/

/-- Result of a successful encryption: `{ handle, attestation }`. -/
structure EncResult where
  handle : String
  attestation : String
deriving DecidableEq

/-- The object resolved by `enc.encrypt()`.  Each field is `none` when the
property is absent (`undefined`); handle list entries and proof blobs are
modelled as JS strings (truthy iff nonempty). -/
structure EncOut where
  handles : Option (List String)
  externalValues : Option (List String)
  inputProof : Option String
  attestation : Option String

/-- `(out?.handles || out?.externalValues)`: a present array is always
truthy in JS (even when empty), so `handles` wins whenever present. -/
def pickHandles (o : EncOut) : Option (List String) :=
  match o.handles with
  | some l => some l
  | none => o.externalValues

/-- `(out?.handles || out?.externalValues)?.[0]`. -/
def handleOf (o : EncOut) : Option String :=
  (pickHandles o).bind List.head?

/-- `out?.inputProof || out?.attestation`. -/
def proofOf (o : EncOut) : Option String :=
  jsOrField o.inputProof o.attestation

/-- The extraction and validation tail of `doEncrypt` (lines 82-86):
`if (!handle) throw ...; if (!proof) throw ...; return {handle, attestation}`. -/
def extractHandleProof (o : EncOut) : Except String EncResult :=
  match handleOf o with
  | none => .error "Encrypt: missing handle"
  | some h =>
    if h = "" then .error "Encrypt: missing handle"
    else
      match proofOf o with
      | none => .error "Encrypt: missing inputProof/attestation"
      | some p =>
        if p = "" then .error "Encrypt: missing inputProof/attestation"
        else .ok { handle := h, attestation := p }

/-- `SepoliaConfig` fields read by `attachExtraData`. -/
structure NetConfig where
  chainId : Option String
  kmsContractAddress : Option String
  aclContractAddress : Option String

/-- The `extra` record built by `attachExtraData` (lines 68-74), with the
`SepoliaConfig?.chainId || "0xaa36a7"` fallback. -/
structure ExtraData where
  contractAddress : String
  userAddress : String
  chainId : Option String
  kmsContractAddress : Option String
  aclContractAddress : Option String
deriving DecidableEq

def mkExtraData (cfg : NetConfig) (ca ua : String) : ExtraData where
  contractAddress := ca
  userAddress := ua
  chainId := jsOrField cfg.chainId (some "0xaa36a7")
  kmsContractAddress := cfg.kmsContractAddress
  aclContractAddress := cfg.aclContractAddress

/-- The relayer SDK instance capabilities used by `encrypt64For`, over an
opaque builder type `β`.  `createStructured` is
`r.createEncryptedInput({contractAddress, userAddress})`, `createPositional`
is `r.createEncryptedInput(ca, ua)`; `attachExtra` covers both branches of
`attachExtraData` (a throwing `setExtraData` method, or the never-throwing
field assignment modelled as `.ok`); `add64` and `encrypt` are the two
builder steps of `doEncrypt`. -/
structure Backend (β : Type) where
  createStructured : String → String → Except String β
  createPositional : String → String → Except String β
  attachExtra : β → ExtraData → Except String β
  add64 : β → Int → Except String β
  encrypt : β → Except String EncOut

/-- `attachExtraData(enc, ca, ua)` (lines 67-77). -/
def attachExtraData (bk : Backend β) (cfg : NetConfig) (enc : β)
    (ca ua : String) : Except String β :=
  bk.attachExtra enc (mkExtraData cfg ca ua)

/-- `doEncrypt(enc, valueBigInt)` (lines 79-87). -/
def doEncrypt (bk : Backend β) (enc : β) (v : Int) : Except String EncResult := do
  let enc ← bk.add64 enc v
  let out ← bk.encrypt enc
  extractHandleProof out

/-- The two call shapes `encrypt64For` knows about. -/
inductive Shape where
  | structured
  | positional
deriving DecidableEq

/-- One full attempt of the body of the inner loop for one shape:
construction, metadata attachment, and encryption. -/
def attemptShape (bk : Backend β) (cfg : NetConfig) (sh : Shape)
    (ca ua : String) (v : Int) : Except String EncResult := do
  let enc ← (match sh with
    | .structured => bk.createStructured ca ua
    | .positional => bk.createPositional ca ua)
  let enc ← attachExtraData bk cfg enc ca ua
  doEncrypt bk enc v

/-- A backend-call event: one `createEncryptedInput` invocation (every other
backend interaction of an attempt requires the builder this call returns). -/
abbrev Ev : Type := Shape × String × String

/-- The nested `for` loops of `encrypt64For` (lines 113-133) flattened over
the list of (contract, user) candidate pairs, threading `lastErr`, together
with the list of builder-construction events it performs.  On a pair, the
structured shape is tried; on any throw the positional shape is tried; when
both fail the positional error becomes `lastErr` and the next pair is tried.
The empty case is `throw lastErr || new Error("Relayer encrypt failed for
all address variants")` (line 134). -/
def tryPairs (bk : Backend β) (cfg : NetConfig) (v : Int) :
    List (String × String) → Option String → Except String EncResult × List Ev
  | [], last =>
    (.error (jsOrString (last.getD "") "Relayer encrypt failed for all address variants"), [])
  | (ca, ua) :: rest, _last =>
    match attemptShape bk cfg .structured ca ua v with
    | .ok r => (.ok r, [(.structured, ca, ua)])
    | .error _e1 =>
      match attemptShape bk cfg .positional ca ua v with
      | .ok r => (.ok r, [(.structured, ca, ua), (.positional, ca, ua)])
      | .error e2 =>
        let next := tryPairs bk cfg v rest (some e2)
        (next.1, (.structured, ca, ua) :: (.positional, ca, ua) :: next.2)

/-- Row-major cartesian product, matching the loop nesting `for ca ... for ua`. -/
def pairsOf (caList uaList : List String) : List (String × String) :=
  caList.flatMap (fun ca => uaList.map (fun ua => (ca, ua)))

/-- `encrypt64For(contractAddress, userAddress, valueBigInt)` (lines
101-135).  `sess` is the outcome of `await initRelayer()`; the second
component is the list of builder-construction calls made against the
backend. -/
def encrypt64For (sess : Except String Unit) (wallet : WalletEnv)
    (eth : EthersEnv) (bk : Backend β) (cfg : NetConfig)
    (contractAddress : String) (userAddress : Option String) (v : Int) :
    Except String EncResult × List Ev :=
  match sess with
  | .error e => (.error e, [])
  | .ok () =>
    match ensureUserAddress wallet userAddress with
    | .error e => (.error e, [])
    | .ok uaRaw =>
      let caList := addressVariants eth contractAddress
      let uaList := addressVariants eth uaRaw
      if caList.isEmpty then
        (.error ("Contract address looks invalid: " ++ contractAddress), [])
      else if uaList.isEmpty then
        (.error ("User address looks invalid: " ++ uaRaw), [])
      else
        tryPairs bk cfg v (pairsOf caList uaList) none

/-- The spec-side attempt order over the candidate pairs: for each pair, in
order, the structured shape then the positional shape. -/
def attemptSeq (pairs : List (String × String)) : List Ev :=
  pairs.flatMap (fun p => [(.structured, p.1, p.2), (.positional, p.1, p.2)])

/-- Scans a list of attempts in order, stopping at the first success:
returns the attempts actually performed (all of them when none succeeds)
and the first successful result, if any. -/
def firstOkScan (o : α → Except String EncResult) :
    List α → List α × Option EncResult
  | [] => ([], none)
  | a :: rest =>
    match o a with
    | .ok r => ([a], some r)
    | .error _ =>
      let next := firstOkScan o rest
      (a :: next.1, next.2)

/-- The outcome of one attempt event against a backend. -/
def attemptOf (bk : Backend β) (cfg : NetConfig) (v : Int) (e : Ev) :
    Except String EncResult :=
  attemptShape bk cfg e.1 e.2.1 e.2.2 v

/-! ## Decrypt response normalization (`userDecrypt` lines 176-178,
`publicDecrypt` lines 187-188) -/

/-- The shape of a decrypt backend response: either an ordered array of
values (an element is `none` when the slot holds `undefined`), or a mapping
object; `lookupRaw` models property access `out[h]` with the raw handle and
`lookupStr` models `out[String(h)]`. -/
inductive DecResp (H : Type) where
  | arr (vs : List (Option Int))
  | map (lookupRaw : H → Option Int) (lookupStr : String → Option Int)

/-- `BigInt(v)`: succeeds on a numeric value, throws on `undefined`. -/
def bigIntOf : Option Int → Except String Int
  | some v => .ok v
  | none => .error "Cannot convert undefined to a BigInt"

/-- `out.map((v) => BigInt(v))`: left-to-right, throwing at the first
unconvertible element. -/
def decodeArr : List (Option Int) → Except String (List Int)
  | [] => .ok []
  | v :: rest =>
    match bigIntOf v with
    | .error e => .error e
    | .ok n =>
      match decodeArr rest with
      | .error e => .error e
      | .ok ns => .ok (n :: ns)

/-- `handles.map((h) => BigInt(f h))`: left-to-right, throwing at the first
handle whose value is missing. -/
def decodeAll (f : H → Option Int) : List H → Except String (List Int)
  | [] => .ok []
  | h :: rest =>
    match bigIntOf (f h) with
    | .error e => .error e
    | .ok n =>
      match decodeAll f rest with
      | .error e => .error e
      | .ok ns => .ok (n :: ns)

/-- The response-normalization tail shared by `userDecrypt` and
`publicDecrypt`: `if (Array.isArray(out)) return out.map(BigInt); return
handles.map((h) => BigInt(out[h] ?? out[String(h)]))`. -/
def normalizeDecrypt (toStr : H → String) (handles : List H) :
    DecResp H → Except String (List Int)
  | .arr vs => decodeArr vs
  | .map f g => decodeAll (fun h => jsCoalesce (f h) (g (toStr h))) handles

/-! ## `publicDecrypt` (lines 184-189) -/

/-- `publicDecrypt(handles)`: `initRelayer`, one backend call, response
normalization. -/
def publicDecrypt (sess : Except String Unit)
    (backend : List H → Except String (DecResp H)) (toStr : H → String)
    (handles : List H) : Except String (List Int) := do
  let _ ← sess
  let out ← backend handles
  normalizeDecrypt toStr handles out

/-! ## `userDecrypt` (lines 140-179) -/

/-- The session keypair (`_ud_kp`). -/
structure Keypair where
  publicKey : String
  privateKey : String
deriving DecidableEq

/-- The argument record of the backend call `r.userDecrypt(pairs,
privateKey, publicKey, signature, [ca], ua, startTs, days)` (lines
165-174). -/
structure UdCall (H : Type) where
  pairs : List (H × String)
  privateKey : String
  publicKey : String
  signature : String
  contractAddresses : List String
  userAddress : String
  startTimeStamp : String
  durationDays : String

/-- `String(signature).replace of one leading 0x occurrence`. -/
def stripHexPfx (s : String) : String :=
  match s.data with
  | '0' :: 'x' :: rest => String.mk rest
  | _ => s

/-- The collaborators of `userDecrypt`.  `sess` is the outcome of `await
initRelayer()`; `udKp` is the cached module-level `_ud_kp` and `genKeypair`
the lazy regeneration (`r.generateKeypair` when present, else the SDK-level
generator); `getSigner` is `_getSignerAndUser()` reduced to its outcome (it
throws when `window.ethereum` is missing or the account request fails);
`createEIP712` is `r.createEIP712`; `signTypedData` is
`signer.signTypedData(eip.domain, types, eip.message)` over the opaque
typed-data object; `backendUserDecrypt` is `r.userDecrypt`; `now` is
`Math.floor(Date.now() / 1000)`. -/
structure UdEnv (H Eip : Type) where
  sess : Except String Unit
  wallet : WalletEnv
  eth : EthersEnv
  udKp : Option Keypair
  genKeypair : Except String Keypair
  getSigner : Except String String
  createEIP712 : String → List String → String → String → Eip
  signTypedData : Eip → Except String String
  backendUserDecrypt : UdCall H → Except String (DecResp H)
  now : Nat

/-- `userDecrypt(handles, userAddress, contractAddress)` (lines 140-179). -/
def userDecrypt (env : UdEnv H Eip) (toStr : H → String) (handles : List H)
    (userAddress : Option String) (contractAddress : String) :
    Except String (List Int) := do
  let _ ← env.sess
  let ua ← ensureUserAddress env.wallet userAddress
  let ca := resolveCa env.eth contractAddress
  let kp ← (match env.udKp with
    | some k => Except.ok k
    | none => env.genKeypair)
  let _signerUser ← env.getSigner
  let startTs := toString env.now
  let days := "7"
  let eip := env.createEIP712 kp.publicKey [ca] startTs days
  let signature ← env.signTypedData eip
  let pairs := handles.map (fun h => (h, ca))
  let out ← env.backendUserDecrypt
    { pairs := pairs
      privateKey := kp.privateKey
      publicKey := kp.publicKey
      signature := stripHexPfx signature
      contractAddresses := [ca]
      userAddress := ua
      startTimeStamp := startTs
      durationDays := days }
  normalizeDecrypt toStr handles out

/-! ## Session initialization (`initRelayer`, lines 17-41)

The module-level mutable state is `_relayer` and `_ud_kp`; every `await`
is a suspension point of the page's cooperative event loop, so a run of
`initRelayer` is a sequence of atomic segments separated by suspensions.
The machine below gives each concurrent call (task) a program counter
marking the suspension point it is parked at, and a scheduler replays an
arbitrary interleaving of task resumptions. -/

instance exceptDecEq {ε α : Type} [DecidableEq ε] [DecidableEq α] :
    DecidableEq (Except ε α)
  | .ok a, .ok b =>
    if h : a = b then .isTrue (by rw [h])
    else .isFalse (by intro he; cases he; exact h rfl)
  | .ok _, .error _ => .isFalse (by intro h; cases h)
  | .error _, .ok _ => .isFalse (by intro h; cases h)
  | .error a, .error b =>
    if h : a = b then .isTrue (by rw [h])
    else .isFalse (by intro he; cases he; exact h rfl)

/-- The external collaborators of one `initRelayer` call: wallet presence,
`initSDK()`, `createInstance(...)` (instances are numbered), and the
keypair generator (`_relayer.generateKeypair` when exposed, else the
SDK-level `generateKeypair`; keypairs are numbered). -/
structure InitEnv where
  walletPresent : Bool
  initSDK : Except String Unit
  createInstance : Except String Nat
  generateKeypair : Except String Nat
deriving DecidableEq

/-- The module-level mutable state: `_relayer` and `_ud_kp`. -/
structure ModState where
  relayer : Option Nat
  udKp : Option Nat
deriving DecidableEq

/-- Counters of backend-connect (`createInstance`) and keypair-generation
calls performed so far, across all tasks. -/
structure InitCounters where
  createCalls : Nat
  kpGenCalls : Nat
deriving DecidableEq

/-- Where a task is parked: before its first segment, at the `await` of
`initSDK()` / `createInstance(...)` / the keypair generator, or finished
with a result. -/
inductive TaskPC where
  | start
  | afterInitSDK
  | afterCreate
  | afterKpGen
  | done (r : Except String Nat)
deriving DecidableEq

/-- Runs one task segment of `initRelayer` (lines 17-41): from its current
suspension point to the next one (or to completion).  Counters are bumped
when the corresponding collaborator call is issued, which is also when the
task suspends. -/
def stepTask (env : InitEnv) : TaskPC → ModState → InitCounters →
    TaskPC × ModState × InitCounters
  | .start, st, c =>
    match st.relayer with
    | some r => (.done (.ok r), st, c)
    | none =>
      if env.walletPresent then (.afterInitSDK, st, c)
      else (.done (.error "MetaMask not found"), st, c)
  | .afterInitSDK, st, c =>
    match env.initSDK with
    | .error e => (.done (.error e), st, c)
    | .ok () => (.afterCreate, st, { c with createCalls := c.createCalls + 1 })
  | .afterCreate, st, c =>
    match env.createInstance with
    | .error e => (.done (.error e), st, c)
    | .ok inst =>
      let st' : ModState := { st with relayer := some inst }
      match st'.udKp with
      | some _ => (.done (.ok inst), st', c)
      | none => (.afterKpGen, st', { c with kpGenCalls := c.kpGenCalls + 1 })
  | .afterKpGen, st, c =>
    match env.generateKeypair with
    | .error e => (.done (.error e), st, c)
    | .ok k =>
      let st' : ModState := { st with udKp := some k }
      (.done (.ok (st'.relayer.getD 0)), st', c)
  | .done r, st, c => (.done r, st, c)

/-- Replays a schedule (a list of task indices) over a pool of tasks, each
with its own collaborator outcomes and program counter, sharing the
module-level state. -/
def runSched : List Nat → List (InitEnv × TaskPC) → ModState → InitCounters →
    List (InitEnv × TaskPC) × ModState × InitCounters
  | [], tasks, st, c => (tasks, st, c)
  | i :: rest, tasks, st, c =>
    match tasks.get? i with
    | none => runSched rest tasks st c
    | some (env, pc) =>
      let next := stepTask env pc st c
      runSched rest (tasks.set i (env, next.1)) next.2.1 next.2.2

/-! ## Concrete fixtures used by witnesses and counterexamples -/

/-- A lowercase 40-hex address. -/
def addrLow : String := "0xabcdef1234567890abcdef1234567890abcdef12"

/-- A mixed-case (checksum-style) spelling of `addrLow`. -/
def addrCs : String := "0xABcdEF1234567890abcdef1234567890abcdef12"

/-- A second lowercase 40-hex address, used as the user address. -/
def addrUser : String := "0x1234567890abcdef1234567890abcdef12345678"

/-- `addrCs` surrounded by whitespace and a zero-width space. -/
def addrNoisy : String := " \u200b0xABcdEF1234567890abcdef1234567890abcdef12 "

/-- An ethers stub whose `getAddress` canonicalizes both spellings of the
fixture address to `addrCs` and throws on everything else. -/
def ethFix : EthersEnv :=
  some (fun s => if s = addrCs ∨ s = addrLow then some addrCs else none)

/-- A concrete network configuration record. -/
def cfg0 : NetConfig := ⟨some "0xaa36a7", some "0xkms", some "0xacl"⟩

/-- A well-formed `encrypt()` result. -/
def okOut : EncOut := ⟨some ["0xhandle1"], none, some "0xproof1", none⟩

/-- A backend stub whose structured construction succeeds but whose
encryption then rejects, while the positional shape succeeds end to end.
The builder value remembers which construction shape produced it. -/
def shapeCexBackend : Backend Shape where
  createStructured := fun _ _ => .ok .structured
  createPositional := fun _ _ => .ok .positional
  attachExtra := fun b _ => .ok b
  add64 := fun b _ => .ok b
  encrypt := fun b =>
    match b with
    | .structured => .error "structured encrypt rejected"
    | .positional => .ok okOut

/-- A backend stub that rejects every construction, with an error message
naming the shape and contract candidate of the failed attempt. -/
def allFailBackend : Backend Unit where
  createStructured := fun ca _ => .error ("s:" ++ ca)
  createPositional := fun ca _ => .error ("p:" ++ ca)
  attachExtra := fun b _ => .ok b
  add64 := fun b _ => .ok b
  encrypt := fun _ => .error "unreachable"

/-- The two handles of the spec scenario. -/
def handlesAB : List String := ["0xhandleA", "0xhandleB"]

/-- The mapping of the spec scenario: handleA to 7, handleB to 9. -/
def lookupAB : String → Option Int :=
  fun h => if h = "0xhandleA" then some 7 else
    if h = "0xhandleB" then some 9 else none

/-- The mapping-shaped stub response of the spec scenario. -/
def respMapAB : DecResp String := .map lookupAB lookupAB

/-- A mapping that lacks an entry for handleB. -/
def lookupA : String → Option Int :=
  fun h => if h = "0xhandleA" then some 7 else none

/-- A `userDecrypt` environment in which every collaborator succeeds and the
backend answers `resp` to any request. -/
def udEnvOf (eth : EthersEnv) (resp : DecResp String) : UdEnv String Unit where
  sess := .ok ()
  wallet := some [addrUser]
  eth := eth
  udKp := some ⟨"pubkey", "privkey"⟩
  genKeypair := .ok ⟨"pubkey", "privkey"⟩
  getSigner := .ok addrUser
  createEIP712 := fun _ _ _ _ => ()
  signTypedData := fun _ => .ok "0xsig"
  backendUserDecrypt := fun _ => .ok resp
  now := 1700000000

/-- Collaborators of an `initRelayer` call for which everything succeeds,
numbering the instance and keypair it would create. -/
def envGood (i : Nat) : InitEnv := ⟨true, .ok (), .ok (100 + i), .ok (200 + i)⟩

/-- Collaborators of an `initRelayer` call whose `createInstance` rejects. -/
def envCreateFail : InitEnv := ⟨true, .ok (), .error "relayer connect refused", .ok 9⟩

/-! ## Generic lemmas -/

theorem except_bind_ok {α γ : Type} {x : Except String α}
    {f : α → Except String γ} {r : γ} :
    (x >>= f) = .ok r ↔ ∃ a, x = .ok a ∧ f a = .ok r := by
  cases x with
  | error e => simp [Bind.bind, Except.bind]
  | ok a => simp [Bind.bind, Except.bind]

theorem isHexDigitLower_le_mixed {c : Char}
    (h : isHexDigitLower c = true) : isHexDigitMixed c = true := by
  simp [isHexDigitMixed, h]

theorem matchesLower_imp_mixed {s : String} (h : matchesLower s = true) :
    matchesMixed s = true := by
  unfold matchesLower matchesAddr at h
  unfold matchesMixed matchesAddr
  rcases hd : s.data with _ | ⟨c0, _ | ⟨c1, rest⟩⟩ <;> rw [hd] at h <;>
    simp_all
  obtain ⟨h1, h2⟩ := h
  exact fun c hc => isHexDigitLower_le_mixed (h2 c hc)

theorem matchesMixed_ne_empty {s : String} (h : matchesMixed s = true) :
    s ≠ "" := by
  intro he
  rw [he] at h
  exact absurd h (by decide)

theorem mem_jsSetDedupAux {c : String} :
    ∀ {l seen : List String},
      c ∈ jsSetDedupAux seen l ↔ c ∈ l ∧ c ∉ seen := by
  intro l
  induction l with
  | nil => intro seen; simp [jsSetDedupAux]
  | cons x xs ih =>
    intro seen
    by_cases hx : x ∈ seen
    · rw [jsSetDedupAux, if_pos hx]
      rw [ih, List.mem_cons]
      constructor
      · exact fun ⟨h1, h2⟩ => ⟨Or.inr h1, h2⟩
      · rintro ⟨h1 | h1, h2⟩
        · exact absurd (h1 ▸ hx) h2
        · exact ⟨h1, h2⟩
    · rw [jsSetDedupAux, if_neg hx]
      rw [List.mem_cons, ih, List.mem_cons, List.mem_cons]
      by_cases hc : c = x
      · subst hc; simp [hx]
      · simp [hc]

theorem mem_jsSetDedup {c : String} {l : List String} :
    c ∈ jsSetDedup l ↔ c ∈ l := by
  rw [jsSetDedup, mem_jsSetDedupAux]
  simp

theorem nodup_jsSetDedupAux :
    ∀ {l seen : List String}, (jsSetDedupAux seen l).Nodup := by
  intro l
  induction l with
  | nil => intro seen; simp [jsSetDedupAux]
  | cons x xs ih =>
    intro seen
    by_cases hx : x ∈ seen
    · rw [jsSetDedupAux, if_pos hx]; exact ih
    · rw [jsSetDedupAux, if_neg hx]
      refine List.nodup_cons.mpr ⟨fun hmem => ?_, ih⟩
      exact (mem_jsSetDedupAux.mp hmem).2 (List.mem_cons_self x seen)

theorem nodup_jsSetDedup {l : List String} : (jsSetDedup l).Nodup :=
  nodup_jsSetDedupAux

theorem jsSetDedup_single (x : String) : jsSetDedup [x] = [x] := by
  simp [jsSetDedup, jsSetDedupAux]

theorem jsSetDedup_pair (x y : String) :
    jsSetDedup [x, y] = if y = x then [x] else [x, y] := by
  by_cases h : y = x <;> simp [jsSetDedup, jsSetDedupAux, h]

theorem csCandOf_shape (eth : EthersEnv) (a : String) :
    csCandOf eth a = [] ∨
    ∃ cs, csCandOf eth a = [cs] ∧ matchesMixed cs = true := by
  rcases eth with _ | f
  · simp only [csCandOf]
    by_cases hm : matchesMixed (rawOf a) <;> simp [hm]
  · simp only [csCandOf]
    rcases f (rawOf a) with _ | cs
    · simp
    · by_cases hm : matchesMixed cs <;> simp [hm]

theorem mem_addressVariants_matches {eth : EthersEnv} {a c : String}
    (h : c ∈ addressVariants eth a) : matchesMixed c = true := by
  rw [addressVariants, mem_jsSetDedup, List.mem_append] at h
  rcases h with h | h
  · rcases csCandOf_shape eth a with h0 | ⟨cs, hcs, hm⟩
    · rw [h0] at h; simp at h
    · rw [hcs] at h; simp at h; subst h; exact hm
  · split at h <;> simp at h
    subst h
    exact matchesLower_imp_mixed (by assumption)

/-! ## Claim C5 -/

/-- Claim C5: for every input string whose U+200B-stripped, trimmed form
lowercases to a string matching the anchored lowercase 40-hex-digit address
pattern, `addressVariants` returns a duplicate-free list of exactly one or
two candidates; the lowercase form is always present; the checksummed form
is present whenever checksum canonicalization succeeds (produces a
pattern-matching string); every candidate matches the 40-hex-digit address
pattern; and a candidate distinct from the lowercase form can only be the
checksummed one and precedes the lowercase form. -/
theorem c5_addressVariants_candidates (eth : EthersEnv) (a : String)
    (h : matchesLower (jsToLower (rawOf a)) = true) :
    ((addressVariants eth a).length = 1 ∨ (addressVariants eth a).length = 2)
    ∧ jsToLower (rawOf a) ∈ addressVariants eth a
    ∧ (addressVariants eth a).Nodup
    ∧ (∀ c ∈ addressVariants eth a, matchesMixed c = true)
    ∧ (∀ f cs, eth = some f → f (rawOf a) = some cs →
        matchesMixed cs = true → cs ∈ addressVariants eth a)
    ∧ (∀ c ∈ addressVariants eth a, c ≠ jsToLower (rawOf a) →
        addressVariants eth a = [c, jsToLower (rawOf a)]) := by
  have hdedup : addressVariants eth a =
      jsSetDedup (csCandOf eth a ++ [jsToLower (rawOf a)]) := by
    rw [addressVariants, if_pos h]
  have hlcm : matchesMixed (jsToLower (rawOf a)) = true := matchesLower_imp_mixed h
  rcases csCandOf_shape eth a with h0 | ⟨cs, hcs, hm⟩
  · have hout : addressVariants eth a = [jsToLower (rawOf a)] := by
      rw [hdedup, h0, List.nil_append, jsSetDedup_single]
    refine ⟨Or.inl (by rw [hout]; rfl), by rw [hout]; exact List.mem_singleton.mpr rfl,
      by rw [hout]; simp, ?_, ?_, ?_⟩
    · intro c hc; rw [hout] at hc; simp at hc; subst hc; exact hlcm
    · intro f cs hf hfr hm
      subst hf
      simp only [csCandOf, hfr, if_pos hm] at h0
      exact (List.cons_ne_nil cs [] h0).elim
    · intro c hc hne
      rw [hout] at hc; simp at hc; subst hc
      exact absurd rfl hne
  · by_cases hcl : jsToLower (rawOf a) = cs
    · have hout : addressVariants eth a = [cs] := by
        rw [hdedup, hcs, List.cons_append, List.nil_append, jsSetDedup_pair,
          if_pos hcl]
      refine ⟨Or.inl (by rw [hout]; rfl), by rw [hout, ← hcl]; exact List.mem_singleton.mpr rfl,
        by rw [hout]; simp, ?_, ?_, ?_⟩
      · intro c hc; rw [hout] at hc; simp at hc; subst hc; exact hm
      · intro f cs' hf hfr hm'
        subst hf
        simp only [csCandOf, hfr, if_pos hm'] at hcs
        have hcc : cs' = cs := by simpa using hcs
        rw [hout, hcc]
        exact List.mem_singleton.mpr rfl
      · intro c hc hne
        rw [hout] at hc; simp at hc; subst hc
        exact absurd hcl.symm hne
    · have hout : addressVariants eth a = [cs, jsToLower (rawOf a)] := by
        rw [hdedup, hcs, List.cons_append, List.nil_append, jsSetDedup_pair,
          if_neg hcl]
      refine ⟨Or.inr (by rw [hout]; rfl), by rw [hout]; simp, ?_, ?_, ?_, ?_⟩
      · rw [hout]
        refine List.nodup_cons.mpr ⟨?_, by simp⟩
        simp only [List.mem_singleton]
        exact fun hx => hcl hx.symm
      · intro c hc; rw [hout] at hc; simp at hc
        rcases hc with hc | hc <;> subst hc
        · exact hm
        · exact hlcm
      · intro f cs' hf hfr hm'
        subst hf
        simp only [csCandOf, hfr, if_pos hm'] at hcs
        have hcc : cs' = cs := by simpa using hcs
        rw [hout, hcc]
        simp
      · intro c hc hne
        rw [hout] at hc ⊢
        simp at hc
        rcases hc with hc | hc
        · rw [hc]
        · exact absurd hc hne

/-- Witness for C5 at a concrete noisy mixed-case address: the hypothesis
holds and the candidate list is the checksummed form followed by the
lowercase form. -/
theorem c5_witness :
    matchesLower (jsToLower (rawOf addrNoisy)) = true
    ∧ (((addressVariants ethFix addrNoisy).length = 1 ∨
         (addressVariants ethFix addrNoisy).length = 2)
      ∧ jsToLower (rawOf addrNoisy) ∈ addressVariants ethFix addrNoisy
      ∧ (addressVariants ethFix addrNoisy).Nodup
      ∧ (∀ c ∈ addressVariants ethFix addrNoisy, matchesMixed c = true)
      ∧ (∀ f cs, ethFix = some f → f (rawOf addrNoisy) = some cs →
          matchesMixed cs = true → cs ∈ addressVariants ethFix addrNoisy)
      ∧ (∀ c ∈ addressVariants ethFix addrNoisy, c ≠ jsToLower (rawOf addrNoisy) →
          addressVariants ethFix addrNoisy = [c, jsToLower (rawOf addrNoisy)])) :=
  ⟨by decide, c5_addressVariants_candidates ethFix addrNoisy (by decide)⟩

/-! ## Claim C4 -/

/-- Claim C4: when the user address resolves but either candidate set is
empty, `encrypt64For` fails with the invalid-address error carrying the
offending raw string (the contract address is checked first), and the
builder-call trace is empty: no backend call is attempted before the
failure. -/
theorem c4_invalid_address_fail_fast {β : Type} (wallet : WalletEnv)
    (eth : EthersEnv) (bk : Backend β) (cfg : NetConfig)
    (contractAddress : String) (userAddress : Option String) (v : Int)
    (uaRaw : String)
    (hua : ensureUserAddress wallet userAddress = .ok uaRaw) :
    (addressVariants eth contractAddress = [] →
      encrypt64For (.ok ()) wallet eth bk cfg contractAddress userAddress v =
        (.error ("Contract address looks invalid: " ++ contractAddress), []))
    ∧ (addressVariants eth contractAddress ≠ [] →
       addressVariants eth uaRaw = [] →
      encrypt64For (.ok ()) wallet eth bk cfg contractAddress userAddress v =
        (.error ("User address looks invalid: " ++ uaRaw), [])) := by
  constructor
  · intro hca
    simp [encrypt64For, hua, hca]
  · intro hca hub
    simp [encrypt64For, hua, hub, hca]

/-- Witness for C4: a contract address with no candidate form, then a user
address with no candidate form, each rejected with its raw string in the
message and an empty backend-call trace. -/
theorem c4_witness :
    ensureUserAddress (some [addrUser]) (some addrUser) = .ok addrUser
    ∧ encrypt64For (.ok ()) (some [addrUser]) none allFailBackend cfg0
        "zzz" (some addrUser) 500 =
        (.error "Contract address looks invalid: zzz", [])
    ∧ encrypt64For (.ok ()) (some [addrUser]) none allFailBackend cfg0
        addrLow (some "ww") 500 =
        (.error "User address looks invalid: ww", []) :=
  ⟨by decide,
   (c4_invalid_address_fail_fast (some [addrUser]) none allFailBackend cfg0
      "zzz" (some addrUser) 500 addrUser (by decide)).1 (by decide),
   (c4_invalid_address_fail_fast (some [addrUser]) none allFailBackend cfg0
      addrLow (some "ww") 500 "ww" (by decide)).2 (by decide) (by decide)⟩

/-! ## Claim C3 -/

theorem pairsOf_nil_left (l : List String) : pairsOf [] l = [] := rfl

theorem pairsOf_nil_right (l : List String) : pairsOf l [] = [] := by
  simp [pairsOf]

theorem tryPairs_all_fail {β : Type} (bk : Backend β) (cfg : NetConfig)
    (v : Int) :
    ∀ (pairs : List (String × String)) (last : Option String)
      (caN uaN eN : String),
      pairs.getLast? = some (caN, uaN) →
      (∀ p ∈ pairs,
        (∃ e, attemptShape bk cfg .structured p.1 p.2 v = .error e) ∧
        (∃ e, attemptShape bk cfg .positional p.1 p.2 v = .error e)) →
      attemptShape bk cfg .positional caN uaN v = .error eN →
      eN ≠ "" →
      (tryPairs bk cfg v pairs last).1 = .error eN := by
  intro pairs
  induction pairs with
  | nil =>
    intro last caN uaN eN hl
    simp at hl
  | cons p rest ih =>
    intro last caN uaN eN hl hall heN hne
    obtain ⟨⟨e1, he1⟩, ⟨e2, he2⟩⟩ := hall p (List.mem_cons_self p rest)
    rcases p with ⟨ca, ua⟩
    cases rest with
    | nil =>
      simp only [List.getLast?_singleton, Option.some.injEq, Prod.mk.injEq] at hl
      obtain ⟨hc, hu⟩ := hl
      subst hc; subst hu
      have he2N : e2 = eN := by
        rw [he2] at heN
        exact (Except.error.injEq _ _).mp heN
      subst he2N
      simp [tryPairs, he1, he2, jsOrString, hne]
    | cons q qs =>
      have hl' : (q :: qs).getLast? = some (caN, uaN) := by
        rw [← hl, List.getLast?_cons_cons]
      simp only [tryPairs, he1, he2]
      exact ih (some e2) caN uaN eN hl'
        (fun p hp => hall p (List.mem_cons_of_mem _ hp)) heN hne

/-- Claim C3: when the user address resolves, the candidate pair list is
nonempty, and every candidate pair fails under both call shapes, then
`encrypt64For` throws exactly the most recently encountered error — the
positional-shape error of the last candidate pair — with its message
preserved (the JS error value must be truthy, which an `Error` object always
is). -/
theorem c3_all_variants_fail_last_error {β : Type} (wallet : WalletEnv)
    (eth : EthersEnv) (bk : Backend β) (cfg : NetConfig)
    (contractAddress : String) (userAddress : Option String) (v : Int)
    (uaRaw caN uaN eN : String)
    (hua : ensureUserAddress wallet userAddress = .ok uaRaw)
    (hlast : (pairsOf (addressVariants eth contractAddress)
        (addressVariants eth uaRaw)).getLast? = some (caN, uaN))
    (hall : ∀ p ∈ pairsOf (addressVariants eth contractAddress)
        (addressVariants eth uaRaw),
        (∃ e, attemptShape bk cfg .structured p.1 p.2 v = .error e) ∧
        (∃ e, attemptShape bk cfg .positional p.1 p.2 v = .error e))
    (heN : attemptShape bk cfg .positional caN uaN v = .error eN)
    (hne : eN ≠ "") :
    (encrypt64For (.ok ()) wallet eth bk cfg contractAddress userAddress
        v).1 = .error eN := by
  have hca : addressVariants eth contractAddress ≠ [] := by
    intro h0
    rw [h0, pairsOf_nil_left] at hlast
    simp at hlast
  have hub : addressVariants eth uaRaw ≠ [] := by
    intro h0
    rw [h0, pairsOf_nil_right] at hlast
    simp at hlast
  simp only [encrypt64For, hua]
  rw [if_neg (by simpa using hca), if_neg (by simpa using hub)]
  exact tryPairs_all_fail bk cfg v _ none caN uaN eN hlast hall heN hne

/-- Witness for C3: with two contract candidates (checksummed then
lowercase) and a backend failing every attempt with an error naming the
shape and candidate, the surfaced error is the positional error of the last
pair, which differs from the first error encountered. -/
theorem c3_witness :
    (pairsOf (addressVariants ethFix addrLow) (addressVariants ethFix addrUser)).getLast?
      = some (addrLow, addrUser)
    ∧ (encrypt64For (.ok ()) (some [addrUser]) ethFix allFailBackend cfg0
        addrLow (some addrUser) 500).1 = .error ("p:" ++ addrLow)
    ∧ ("p:" ++ addrLow) ≠ ("s:" ++ addrCs) :=
  ⟨by decide,
   c3_all_variants_fail_last_error (some [addrUser]) ethFix allFailBackend
     cfg0 addrLow (some addrUser) 500 addrUser addrLow addrUser
     ("p:" ++ addrLow) (by decide) (by decide)
     (fun p _hp => ⟨⟨"s:" ++ p.1, rfl⟩, ⟨"p:" ++ p.1, rfl⟩⟩) rfl
     (by decide),
   by decide⟩

/-! ## Claim C2 -/

/-- Counterexample to C2 as stated: against `shapeCexBackend` the structured
construction for the only candidate pair succeeds (so, per the claim, the
positional call should never be attempted), yet the positional shape is
attempted — and its result returned — because the structured attempt failed
later, at the encryption step. -/
theorem c2_counterexample :
    shapeCexBackend.createStructured addrLow addrUser = .ok .structured
    ∧ (encrypt64For (.ok ()) (some [addrUser]) none shapeCexBackend cfg0
        addrLow (some addrUser) 500).2 =
        [(.structured, addrLow, addrUser), (.positional, addrLow, addrUser)]
    ∧ (encrypt64For (.ok ()) (some [addrUser]) none shapeCexBackend cfg0
        addrLow (some addrUser) 500).1 =
        .ok ⟨"0xhandle1", "0xproof1"⟩ := by
  refine ⟨rfl, by decide, by decide⟩

theorem tryPairs_scan {β : Type} (bk : Backend β) (cfg : NetConfig)
    (v : Int) :
    ∀ (pairs : List (String × String)) (last : Option String),
      (tryPairs bk cfg v pairs last).2
        = (firstOkScan (attemptOf bk cfg v) (attemptSeq pairs)).1
      ∧ (∀ r, (firstOkScan (attemptOf bk cfg v) (attemptSeq pairs)).2 = some r →
          (tryPairs bk cfg v pairs last).1 = .ok r) := by
  intro pairs
  induction pairs with
  | nil =>
    intro last
    simp [tryPairs, attemptSeq, firstOkScan]
  | cons p rest ih =>
    intro last
    rcases p with ⟨ca, ua⟩
    have hseq : attemptSeq ((ca, ua) :: rest) =
        (Shape.structured, ca, ua) :: (Shape.positional, ca, ua) ::
          attemptSeq rest := by
      simp [attemptSeq]
    rw [hseq]
    cases hs : attemptShape bk cfg .structured ca ua v with
    | ok r => simp [tryPairs, hs, firstOkScan, attemptOf]
    | error e1 =>
      cases hp : attemptShape bk cfg .positional ca ua v with
      | ok r => simp [tryPairs, hs, hp, firstOkScan, attemptOf]
      | error e2 =>
        obtain ⟨ht, hr⟩ := ih (some e2)
        constructor
        · simp only [tryPairs, hs, hp, firstOkScan, attemptOf]
          simp [ht]
        · intro r h
          simp only [firstOkScan, attemptOf, hs, hp] at h
          simp only [tryPairs, hs, hp]
          exact hr r h

theorem positional_after_structured_fail {β : Type} (bk : Backend β)
    (cfg : NetConfig) (v : Int) :
    ∀ (pairs : List (String × String)) (ca ua : String),
      (Shape.positional, ca, ua) ∈
        (firstOkScan (attemptOf bk cfg v) (attemptSeq pairs)).1 →
      ∃ e, attemptShape bk cfg .structured ca ua v = .error e := by
  intro pairs
  induction pairs with
  | nil =>
    intro ca ua h
    simp [attemptSeq, firstOkScan] at h
  | cons p rest ih =>
    intro ca ua h
    rcases p with ⟨ca', ua'⟩
    have hseq : attemptSeq ((ca', ua') :: rest) =
        (Shape.structured, ca', ua') :: (Shape.positional, ca', ua') ::
          attemptSeq rest := by
      simp [attemptSeq]
    rw [hseq] at h
    cases hs : attemptShape bk cfg .structured ca' ua' v with
    | ok r =>
      rw [firstOkScan] at h
      simp only [attemptOf] at h
      rw [hs] at h
      simp at h
    | error e1 =>
      rw [firstOkScan] at h
      simp only [attemptOf] at h
      rw [hs] at h
      simp only [List.mem_cons] at h
      rcases h with h | h
      · exact absurd (congrArg Prod.fst h) (by simp)
      · cases hp : attemptShape bk cfg .positional ca' ua' v with
        | ok r =>
          rw [firstOkScan] at h
          simp only [attemptOf] at h
          rw [hp] at h
          simp at h
          obtain ⟨hc, hu⟩ := h
          subst hc; subst hu
          exact ⟨e1, hs⟩
        | error e2 =>
          rw [firstOkScan] at h
          simp only [attemptOf] at h
          rw [hp] at h
          simp only [List.mem_cons] at h
          rcases h with h | h
          · obtain ⟨hc, hu⟩ := by simpa using h
            subst hc; subst hu
            exact ⟨e1, hs⟩
          · exact ih ca ua h

/-- Claim C2 (amended): candidate pairs are attempted strictly in order
(contract candidates outer, user candidates inner); for each pair the
structured call is attempted first and the positional call is attempted
exactly when the whole structured attempt — construction, metadata
attachment, or encryption — throws; the first attempt in this order whose
construction and encryption succeed is returned without attempting any
later pair or shape.  The trace of builder constructions equals the scan of
the spec-side attempt sequence up to its first success, the result is that
first success, and a positional construction in the trace certifies that
the structured attempt on the same pair threw. -/
theorem c2_amended_attempt_order {β : Type} (wallet : WalletEnv)
    (eth : EthersEnv) (bk : Backend β) (cfg : NetConfig)
    (contractAddress : String) (userAddress : Option String) (v : Int)
    (uaRaw : String)
    (hua : ensureUserAddress wallet userAddress = .ok uaRaw)
    (hca : addressVariants eth contractAddress ≠ [])
    (hub : addressVariants eth uaRaw ≠ []) :
    ((encrypt64For (.ok ()) wallet eth bk cfg contractAddress userAddress
        v).2
      = (firstOkScan (attemptOf bk cfg v)
          (attemptSeq (pairsOf (addressVariants eth contractAddress)
            (addressVariants eth uaRaw)))).1)
    ∧ (∀ r, (firstOkScan (attemptOf bk cfg v)
          (attemptSeq (pairsOf (addressVariants eth contractAddress)
            (addressVariants eth uaRaw)))).2 = some r →
        (encrypt64For (.ok ()) wallet eth bk cfg contractAddress userAddress
          v).1 = .ok r)
    ∧ (∀ ca ua, (Shape.positional, ca, ua) ∈
        (encrypt64For (.ok ()) wallet eth bk cfg contractAddress userAddress
          v).2 →
        ∃ e, attemptShape bk cfg .structured ca ua v = .error e) := by
  have hred : encrypt64For (.ok ()) wallet eth bk cfg contractAddress
      userAddress v = tryPairs bk cfg v
        (pairsOf (addressVariants eth contractAddress)
          (addressVariants eth uaRaw)) none := by
    simp only [encrypt64For, hua]
    rw [if_neg (by simpa using hca), if_neg (by simpa using hub)]
  rw [hred]
  obtain ⟨ht, hr⟩ := tryPairs_scan bk cfg v
    (pairsOf (addressVariants eth contractAddress)
      (addressVariants eth uaRaw)) none
  refine ⟨ht, hr, ?_⟩
  intro ca ua hmem
  rw [ht] at hmem
  exact positional_after_structured_fail bk cfg v _ ca ua hmem

/-- Witness for C2 (amended), at the spec scenario backend that fails the
structured shape at encryption and succeeds positionally on the first
pair. -/
theorem c2_witness :
    ensureUserAddress (some [addrUser]) (some addrUser) = .ok addrUser
    ∧ (((encrypt64For (.ok ()) (some [addrUser]) none shapeCexBackend cfg0
          addrLow (some addrUser) 500).2
        = (firstOkScan (attemptOf shapeCexBackend cfg0 500)
            (attemptSeq (pairsOf (addressVariants none addrLow)
              (addressVariants none addrUser)))).1)
      ∧ (∀ r, (firstOkScan (attemptOf shapeCexBackend cfg0 500)
            (attemptSeq (pairsOf (addressVariants none addrLow)
              (addressVariants none addrUser)))).2 = some r →
          (encrypt64For (.ok ()) (some [addrUser]) none shapeCexBackend cfg0
            addrLow (some addrUser) 500).1 = .ok r)
      ∧ (∀ ca ua, (Shape.positional, ca, ua) ∈
          (encrypt64For (.ok ()) (some [addrUser]) none shapeCexBackend cfg0
            addrLow (some addrUser) 500).2 →
          ∃ e, attemptShape shapeCexBackend cfg0 .structured ca ua 500 =
            .error e)) :=
  ⟨by decide,
   c2_amended_attempt_order (some [addrUser]) none shapeCexBackend cfg0
     addrLow (some addrUser) 500 addrUser (by decide) (by decide)
     (by decide)⟩

/-! ## Claim C7 -/

theorem extractHandleProof_ok {o : EncOut} {r : EncResult}
    (h : extractHandleProof o = .ok r) :
    r.handle ≠ "" ∧ r.attestation ≠ "" := by
  unfold extractHandleProof at h
  rcases hh : handleOf o with _ | hd <;> simp only [hh] at h
  · exact absurd h (by simp)
  · by_cases he : hd = ""
    · rw [if_pos he] at h; exact absurd h (by simp)
    · rw [if_neg he] at h
      rcases hp : proofOf o with _ | pf <;> simp only [hp] at h
      · exact absurd h (by simp)
      · by_cases hq : pf = ""
        · rw [if_pos hq] at h; exact absurd h (by simp)
        · rw [if_neg hq] at h
          have hr : r = ⟨hd, pf⟩ := by
            cases h; rfl
          subst hr
          exact ⟨he, hq⟩

theorem attemptShape_ok_extract {β : Type} {bk : Backend β}
    {cfg : NetConfig} {sh : Shape} {ca ua : String} {v : Int}
    {r : EncResult} (h : attemptShape bk cfg sh ca ua v = .ok r) :
    ∃ o, extractHandleProof o = .ok r := by
  unfold attemptShape at h
  obtain ⟨b1, hb1, h⟩ := except_bind_ok.mp h
  obtain ⟨b2, hb2, h⟩ := except_bind_ok.mp h
  unfold doEncrypt at h
  obtain ⟨b3, hb3, h⟩ := except_bind_ok.mp h
  obtain ⟨o, ho, h⟩ := except_bind_ok.mp h
  exact ⟨o, h⟩

theorem tryPairs_ok {β : Type} (bk : Backend β) (cfg : NetConfig) (v : Int) :
    ∀ (pairs : List (String × String)) (last : Option String)
      (r : EncResult),
      (tryPairs bk cfg v pairs last).1 = .ok r →
      ∃ sh ca ua, attemptShape bk cfg sh ca ua v = .ok r := by
  intro pairs
  induction pairs with
  | nil => intro last r h; simp [tryPairs, jsOrString] at h
  | cons p rest ih =>
    intro last r h
    rcases p with ⟨ca, ua⟩
    cases hs : attemptShape bk cfg .structured ca ua v with
    | ok r' =>
      simp only [tryPairs, hs] at h
      exact ⟨.structured, ca, ua, hs.trans h⟩
    | error e1 =>
      cases hp : attemptShape bk cfg .positional ca ua v with
      | ok r' =>
        simp only [tryPairs, hs, hp] at h
        exact ⟨.positional, ca, ua, hp.trans h⟩
      | error e2 =>
        simp only [tryPairs, hs, hp] at h
        exact ih (some e2) r h

theorem encrypt64For_ok {β : Type} {sess : Except String Unit}
    {wallet : WalletEnv} {eth : EthersEnv} {bk : Backend β}
    {cfg : NetConfig} {contractAddress : String}
    {userAddress : Option String} {v : Int} {r : EncResult}
    (h : (encrypt64For sess wallet eth bk cfg contractAddress userAddress
        v).1 = .ok r) :
    r.handle ≠ "" ∧ r.attestation ≠ "" := by
  cases sess with
  | error e => simp [encrypt64For] at h
  | ok u =>
    cases u
    cases hu : ensureUserAddress wallet userAddress with
    | error e => simp [encrypt64For, hu] at h
    | ok uaRaw =>
      simp only [encrypt64For, hu] at h
      split at h
      · simp at h
      · split at h
        · simp at h
        · obtain ⟨sh, ca', ua', hatt⟩ := tryPairs_ok bk cfg v _ none r h
          obtain ⟨o, ho⟩ := attemptShape_ok_extract hatt
          exact extractHandleProof_ok ho

/-- Claim C7: an encryption result with a missing (or falsy) handle fails
with the missing-handle error; a result with a present handle but missing
(or falsy) proof fails with the distinct missing-proof error; and every
successfully returned `EncResult` — from the extraction step and hence from
any successful `encrypt64For` call — carries a non-missing handle and
non-missing attestation. -/
theorem c7_malformed_encrypt_result {β : Type} (o : EncOut)
    (sess : Except String Unit) (wallet : WalletEnv) (eth : EthersEnv)
    (bk : Backend β) (cfg : NetConfig) (contractAddress : String)
    (userAddress : Option String) (v : Int) :
    ((handleOf o = none ∨ handleOf o = some "") →
      extractHandleProof o = .error "Encrypt: missing handle")
    ∧ (∀ hd, handleOf o = some hd → hd ≠ "" →
        (proofOf o = none ∨ proofOf o = some "") →
        extractHandleProof o = .error "Encrypt: missing inputProof/attestation")
    ∧ ("Encrypt: missing handle" : String) ≠ "Encrypt: missing inputProof/attestation"
    ∧ (∀ r, extractHandleProof o = .ok r →
        r.handle ≠ "" ∧ r.attestation ≠ "")
    ∧ (∀ r, (encrypt64For sess wallet eth bk cfg contractAddress
        userAddress v).1 = .ok r →
        r.handle ≠ "" ∧ r.attestation ≠ "") := by
  refine ⟨?_, ?_, by decide, fun r h => extractHandleProof_ok h,
    fun r h => encrypt64For_ok h⟩
  · intro hh
    rcases hh with hh | hh <;> simp [extractHandleProof, hh]
  · intro hd hh hne hp
    rcases hp with hp | hp <;> simp [extractHandleProof, hh, hne, hp]

/-- Witness for C7: a result whose `handles` is a present-but-empty array
(which shadows a nonempty `externalValues`) is rejected as missing the
handle; a result whose `inputProof` and `attestation` are both falsy is
rejected as missing the proof; a successful `encrypt64For` run yields a
nonempty handle and attestation. -/
theorem c7_witness :
    extractHandleProof ⟨some [], some ["0xev"], some "0xproof1", none⟩ =
      .error "Encrypt: missing handle"
    ∧ extractHandleProof ⟨some ["0xhandle1"], none, some "", none⟩ =
      .error "Encrypt: missing inputProof/attestation"
    ∧ ("Encrypt: missing handle" : String) ≠ "Encrypt: missing inputProof/attestation"
    ∧ (("0xhandle1" : String) ≠ "" ∧ ("0xproof1" : String) ≠ "") :=
  ⟨(c7_malformed_encrypt_result ⟨some [], some ["0xev"], some "0xproof1", none⟩
      (.ok ()) (some [addrUser]) none shapeCexBackend cfg0 addrLow
      (some addrUser) 500).1 (Or.inl rfl),
   (c7_malformed_encrypt_result ⟨some ["0xhandle1"], none, some "", none⟩
      (.ok ()) (some [addrUser]) none shapeCexBackend cfg0 addrLow
      (some addrUser) 500).2.1 "0xhandle1" rfl (by decide) (Or.inl rfl),
   (c7_malformed_encrypt_result ⟨some [], none, none, none⟩
      (.ok ()) (some [addrUser]) none shapeCexBackend cfg0 addrLow
      (some addrUser) 500).2.2.1,
   (c7_malformed_encrypt_result ⟨some [], none, none, none⟩
      (.ok ()) (some [addrUser]) none shapeCexBackend cfg0 addrLow
      (some addrUser) 500).2.2.2.2 ⟨"0xhandle1", "0xproof1"⟩ (by decide)⟩

/-! ## Decrypt lemmas -/

theorem decodeArr_map_some : ∀ l : List Int, decodeArr (l.map some) = .ok l := by
  intro l
  induction l with
  | nil => rfl
  | cons v rest ih => simp [decodeArr, bigIntOf, ih]

theorem decodeArr_ok_length :
    ∀ (vs : List (Option Int)) (vals : List Int),
      decodeArr vs = .ok vals → vals.length = vs.length := by
  intro vs
  induction vs with
  | nil =>
    intro vals h
    simp [decodeArr] at h
    simp [← h]
  | cons v rest ih =>
    intro vals h
    cases v with
    | none => simp [decodeArr, bigIntOf] at h
    | some n =>
      simp only [decodeArr, bigIntOf] at h
      cases hr : decodeArr rest with
      | error e => rw [hr] at h; simp at h
      | ok ns =>
        rw [hr] at h
        simp at h
        rw [← h]
        simp [ih ns hr]

theorem decodeAll_pointwise {H : Type} (f : H → Option Int) (V : H → Int) :
    ∀ l : List H, (∀ h ∈ l, f h = some (V h)) →
      decodeAll f l = .ok (l.map V) := by
  intro l
  induction l with
  | nil => intro _; rfl
  | cons h rest ih =>
    intro hall
    have hh := hall h (List.mem_cons_self h rest)
    simp only [decodeAll, hh, bigIntOf,
      ih (fun x hx => hall x (List.mem_cons_of_mem _ hx))]
    simp

theorem decodeAll_ok_char {H : Type} (f : H → Option Int) :
    ∀ (l : List H) (vals : List Int),
      decodeAll f l = .ok vals → l.map f = vals.map some := by
  intro l
  induction l with
  | nil =>
    intro vals h
    simp [decodeAll] at h
    simp [← h]
  | cons x rest ih =>
    intro vals h
    cases hf : f x with
    | none => simp [decodeAll, hf, bigIntOf] at h
    | some n =>
      simp only [decodeAll, hf, bigIntOf] at h
      cases hr : decodeAll f rest with
      | error e => rw [hr] at h; simp at h
      | ok ns =>
        rw [hr] at h
        simp at h
        rw [← h]
        simp [hf, ih ns hr]

/-- Reduction of `userDecrypt` to the backend call it issues, when session,
account resolution, cached keypair, signer access, and signing all
succeed. -/
theorem userDecrypt_eq {H Eip : Type} (env : UdEnv H Eip) (toStr : H → String)
    (handles : List H) (userAddress : Option String)
    (contractAddress : String) (ua : String) (kp : Keypair) (su sig : String)
    (hsess : env.sess = .ok ())
    (hua : ensureUserAddress env.wallet userAddress = .ok ua)
    (hkp : env.udKp = some kp)
    (hsig : env.getSigner = .ok su)
    (hsign : env.signTypedData (env.createEIP712 kp.publicKey
        [resolveCa env.eth contractAddress] (toString env.now) "7") =
        .ok sig) :
    userDecrypt env toStr handles userAddress contractAddress =
      (env.backendUserDecrypt
        { pairs := handles.map
            (fun h => (h, resolveCa env.eth contractAddress))
          privateKey := kp.privateKey
          publicKey := kp.publicKey
          signature := stripHexPfx sig
          contractAddresses := [resolveCa env.eth contractAddress]
          userAddress := ua
          startTimeStamp := toString env.now
          durationDays := "7" }) >>= normalizeDecrypt toStr handles := by
  simp only [userDecrypt, hsess, hua, hkp, hsig, hsign, Bind.bind,
    Except.bind]

/-- Reduction of `publicDecrypt` when the session is up and the backend
answers. -/
theorem publicDecrypt_eq {H : Type}
    (backend : List H → Except String (DecResp H)) (toStr : H → String)
    (handles : List H) (resp : DecResp H)
    (hb : backend handles = .ok resp) :
    publicDecrypt (.ok ()) backend toStr handles =
      normalizeDecrypt toStr handles resp := by
  simp only [publicDecrypt, hb, Bind.bind, Except.bind]

theorem resolveCa_nil {eth : EthersEnv} {a : String}
    (h : addressVariants eth a = []) : resolveCa eth a = a := by
  simp [resolveCa, h]

theorem resolveCa_cons {eth : EthersEnv} {a c : String}
    {rest : List String} (h : addressVariants eth a = c :: rest) :
    resolveCa eth a = c := by
  have hm : matchesMixed c = true :=
    mem_addressVariants_matches (h ▸ List.mem_cons_self c rest)
  simp [resolveCa, h, matchesMixed_ne_empty hm]

/-! ## Claim C1 -/

/-- Claim C1: with all collaborators succeeding and the backend answering
`resp` — either an ordered array carrying one value per handle, or a
mapping resolving each handle (raw key tried first, then the string key) —
both `userDecrypt` and `publicDecrypt` return one unsigned value per input
handle, in input order, with `output[i]` the decrypted value of
`handles[i]`; the final conjunct records that the raw handle key takes
priority over the string key. -/
theorem c1_decrypt_order_and_length {H Eip : Type} (env : UdEnv H Eip)
    (bp : List H → Except String (DecResp H)) (toStr : H → String)
    (handles : List H) (userAddress : Option String)
    (contractAddress : String) (ua : String) (kp : Keypair)
    (su sig : String) (V : H → Int) (resp : DecResp H)
    (hsess : env.sess = .ok ())
    (hua : ensureUserAddress env.wallet userAddress = .ok ua)
    (hkp : env.udKp = some kp)
    (hsig : env.getSigner = .ok su)
    (hsign : env.signTypedData (env.createEIP712 kp.publicKey
        [resolveCa env.eth contractAddress] (toString env.now) "7") =
        .ok sig)
    (hbe : ∀ c, env.backendUserDecrypt c = .ok resp)
    (hbp : ∀ hs, bp hs = .ok resp)
    (hresp : resp = DecResp.arr ((handles.map V).map some)
      ∨ ∃ f g, resp = DecResp.map f g ∧
          ∀ h ∈ handles, jsCoalesce (f h) (g (toStr h)) = some (V h)) :
    userDecrypt env toStr handles userAddress contractAddress =
      .ok (handles.map V)
    ∧ publicDecrypt (.ok ()) bp toStr handles = .ok (handles.map V)
    ∧ (handles.map V).length = handles.length
    ∧ (∀ (x : Int) (o : Option Int), jsCoalesce (some x) o = some x) := by
  have hnorm : normalizeDecrypt toStr handles resp = .ok (handles.map V) := by
    rcases hresp with hresp | ⟨f, g, hresp, hall⟩
    · rw [hresp]
      exact decodeArr_map_some (handles.map V)
    · rw [hresp]
      exact decodeAll_pointwise _ V handles hall
  refine ⟨?_, ?_, List.length_map handles V, fun x o => rfl⟩
  · rw [userDecrypt_eq env toStr handles userAddress contractAddress ua kp
      su sig hsess hua hkp hsig hsign, hbe]
    simp only [Bind.bind, Except.bind]
    exact hnorm
  · rw [publicDecrypt_eq bp toStr handles resp (hbp handles)]
    exact hnorm

/-- Witness for C1 at the spec scenario: a mapping-shaped stub response
with handleA bound to 7 and handleB to 9 yields exactly the ordered pair of
values from both decrypt paths. -/
theorem c1_witness :
    userDecrypt (udEnvOf none respMapAB) id handlesAB (some addrUser)
      "0xpayroll" = .ok [7, 9]
    ∧ publicDecrypt (.ok ()) (fun _ => .ok respMapAB) id handlesAB =
      .ok [7, 9] := by
  have h := c1_decrypt_order_and_length (udEnvOf none respMapAB)
    (fun _ => .ok respMapAB) id handlesAB (some addrUser) "0xpayroll"
    addrUser ⟨"pubkey", "privkey"⟩ addrUser "0xsig"
    (fun h => if h = "0xhandleA" then (7 : Int) else 9) respMapAB
    rfl (by decide) rfl rfl rfl (fun _ => rfl) (fun _ => rfl)
    (Or.inr ⟨lookupAB, lookupAB, rfl, by decide⟩)
  exact ⟨h.1.trans (by decide), h.2.1.trans (by decide)⟩

/-! ## Claim C8 -/

/-- Claim C8: `userDecrypt` resolves the contract address to the first
normalized candidate and, when normalization yields nothing, to the raw
input string unchanged; the resolved value is the one used in the typed-data
message and in every field of the backend call, and the operation proceeds
(to whatever the backend answers) rather than failing on an unnormalizable
contract address. -/
theorem c8_lenient_contract_resolution {H Eip : Type} (env : UdEnv H Eip)
    (toStr : H → String) (handles : List H) (userAddress : Option String)
    (contractAddress : String) (ua : String) (kp : Keypair) (su sig : String)
    (hsess : env.sess = .ok ())
    (hua : ensureUserAddress env.wallet userAddress = .ok ua)
    (hkp : env.udKp = some kp)
    (hsig : env.getSigner = .ok su)
    (hsign : ∀ e, env.signTypedData e = .ok sig) :
    (addressVariants env.eth contractAddress = [] →
      resolveCa env.eth contractAddress = contractAddress)
    ∧ (∀ c rest, addressVariants env.eth contractAddress = c :: rest →
        resolveCa env.eth contractAddress = c)
    ∧ userDecrypt env toStr handles userAddress contractAddress =
        (env.backendUserDecrypt
          { pairs := handles.map
              (fun h => (h, resolveCa env.eth contractAddress))
            privateKey := kp.privateKey
            publicKey := kp.publicKey
            signature := stripHexPfx sig
            contractAddresses := [resolveCa env.eth contractAddress]
            userAddress := ua
            startTimeStamp := toString env.now
            durationDays := "7" }) >>= normalizeDecrypt toStr handles :=
  ⟨fun h => resolveCa_nil h,
   fun _c _rest h => resolveCa_cons h,
   userDecrypt_eq env toStr handles userAddress contractAddress ua kp su sig
     hsess hua hkp hsig (hsign _)⟩

/-- Witness for C8: the contract address string has no valid candidate
form, yet `userDecrypt` resolves it to itself, issues the backend call, and
returns the backend values — it does not fail. -/
theorem c8_witness :
    addressVariants none "bogus" = []
    ∧ resolveCa none "bogus" = "bogus"
    ∧ userDecrypt (udEnvOf none (.arr [some 5, some 6])) id
        ["0xh1", "0xh2"] (some addrUser) "bogus" = .ok [5, 6] := by
  have h := c8_lenient_contract_resolution
    (udEnvOf none (.arr [some 5, some 6])) id ["0xh1", "0xh2"]
    (some addrUser) "bogus" addrUser ⟨"pubkey", "privkey"⟩ addrUser "0xsig"
    rfl (by decide) rfl rfl (fun _ => rfl)
  exact ⟨by decide, h.1 (by decide), (h.2.2).trans (by decide)⟩

/-! ## Claim C9 -/

/-- Counterexample to C9 as stated: an array-shaped backend response with a
single entry against two requested handles makes `publicDecrypt` succeed
with one value — a partial result: no value is produced for the second
handle and the call does not fail.  (`userDecrypt` shares the same
normalization tail.) -/
theorem c9_counterexample :
    publicDecrypt (.ok ()) (fun _ => .ok (.arr [some 7])) id handlesAB =
      .ok [7]
    ∧ ([7] : List Int).length ≠ handlesAB.length := by
  constructor
  · decide
  · decide

/-- Claim C9 (amended): for mapping-shaped responses the all-or-nothing
guarantee holds — both operations either throw, or resolve every requested
handle, in order, with one value per handle; for array-shaped responses the
operations return exactly the converted backend array (throwing at any
undefined element), whose length follows the backend response rather than
the handle list. -/
theorem c9_amended_no_partial {H Eip : Type} (env : UdEnv H Eip)
    (bp : List H → Except String (DecResp H)) (toStr : H → String)
    (handles : List H) (userAddress : Option String)
    (contractAddress : String) (ua : String) (kp : Keypair)
    (su sig : String) (resp : DecResp H)
    (hsess : env.sess = .ok ())
    (hua : ensureUserAddress env.wallet userAddress = .ok ua)
    (hkp : env.udKp = some kp)
    (hsig : env.getSigner = .ok su)
    (hsign : env.signTypedData (env.createEIP712 kp.publicKey
        [resolveCa env.eth contractAddress] (toString env.now) "7") =
        .ok sig)
    (hbe : ∀ c, env.backendUserDecrypt c = .ok resp)
    (hbp : ∀ hs, bp hs = .ok resp) :
    (∀ f g, resp = DecResp.map f g →
      (∃ e, userDecrypt env toStr handles userAddress contractAddress =
          .error e
        ∧ publicDecrypt (.ok ()) bp toStr handles = .error e)
      ∨ (∃ vals,
          userDecrypt env toStr handles userAddress contractAddress =
            .ok vals
          ∧ publicDecrypt (.ok ()) bp toStr handles = .ok vals
          ∧ vals.length = handles.length
          ∧ handles.map (fun h => jsCoalesce (f h) (g (toStr h))) =
              vals.map some))
    ∧ (∀ vs, resp = DecResp.arr vs →
        userDecrypt env toStr handles userAddress contractAddress =
          decodeArr vs
        ∧ publicDecrypt (.ok ()) bp toStr handles = decodeArr vs
        ∧ (∀ vals, decodeArr vs = .ok vals → vals.length = vs.length)) := by
  have hud : userDecrypt env toStr handles userAddress contractAddress =
      normalizeDecrypt toStr handles resp := by
    rw [userDecrypt_eq env toStr handles userAddress contractAddress ua kp
      su sig hsess hua hkp hsig hsign, hbe]
    simp only [Bind.bind, Except.bind]
  have hpd : publicDecrypt (.ok ()) bp toStr handles =
      normalizeDecrypt toStr handles resp :=
    publicDecrypt_eq bp toStr handles resp (hbp handles)
  constructor
  · intro f g hresp
    rw [hresp] at hud hpd
    cases hq : decodeAll (fun h => jsCoalesce (f h) (g (toStr h))) handles with
    | error e =>
      left
      exact ⟨e, by rw [hud]; exact hq, by rw [hpd]; exact hq⟩
    | ok vals =>
      right
      have hchar := decodeAll_ok_char _ handles vals hq
      refine ⟨vals, by rw [hud]; exact hq, by rw [hpd]; exact hq, ?_, hchar⟩
      have hlen := congrArg List.length hchar
      simp at hlen
      exact hlen.symm
  · intro vs hresp
    rw [hresp] at hud hpd
    exact ⟨hud, hpd, fun vals h => decodeArr_ok_length vs vals h⟩

/-- Witness for C9 (amended): a mapping lacking an entry for the second
handle makes both paths throw — no partial result — while a full mapping
resolves both handles. -/
theorem c9_witness :
    (∀ c, (udEnvOf none (DecResp.map lookupA (fun _ => none))).backendUserDecrypt c =
      .ok (DecResp.map lookupA (fun _ => none)))
    ∧ ((∃ e, userDecrypt (udEnvOf none (DecResp.map lookupA (fun _ => none)))
          id handlesAB (some addrUser) "0xpayroll" = .error e
        ∧ publicDecrypt (.ok ())
            (fun _ => .ok (DecResp.map lookupA (fun _ => none))) id
            handlesAB = .error e)
      ∨ (∃ vals, userDecrypt (udEnvOf none (DecResp.map lookupA (fun _ => none)))
            id handlesAB (some addrUser) "0xpayroll" = .ok vals
          ∧ publicDecrypt (.ok ())
              (fun _ => .ok (DecResp.map lookupA (fun _ => none))) id
              handlesAB = .ok vals
          ∧ vals.length = handlesAB.length
          ∧ handlesAB.map (fun h => jsCoalesce (lookupA h) ((fun _ => none) (id h))) =
              vals.map some)) := by
  have h := c9_amended_no_partial
    (udEnvOf none (DecResp.map lookupA (fun _ => none)))
    (fun _ => .ok (DecResp.map lookupA (fun _ => none))) id handlesAB
    (some addrUser) "0xpayroll" addrUser ⟨"pubkey", "privkey"⟩ addrUser
    "0xsig" (DecResp.map lookupA (fun _ => none))
    rfl (by decide) rfl rfl rfl (fun _ => rfl) (fun _ => rfl)
  exact ⟨fun _ => rfl, h.1 lookupA (fun _ => none) rfl⟩

/-! ## Claim C6 -/

/-- Evidence for C6 against the code: two `initRelayer` callers interleaved
at every suspension point (schedule caller 0, caller 1, alternating) each
run the full initialization — `createInstance` is called twice and the
keypair generator twice, not once — because the module only re-checks
`_relayer` before the first `await` and stores no in-flight initialization.
(Both callers happen to return the instance assigned last, `102`.) -/
theorem c6_concurrent_init_duplicates :
    (runSched [0, 1, 0, 1, 0, 1, 0, 1]
      [(envGood 1, .start), (envGood 2, .start)] ⟨none, none⟩ ⟨0, 0⟩).2.2 =
      ⟨2, 2⟩
    ∧ ((2 : Nat) ≠ 1)
    ∧ (runSched [0, 1, 0, 1, 0, 1, 0, 1]
      [(envGood 1, .start), (envGood 2, .start)] ⟨none, none⟩ ⟨0, 0⟩).1 =
      [(envGood 1, .done (.ok 102)), (envGood 2, .done (.ok 102))] :=
  ⟨by decide, by decide, by decide⟩

/-! ## Claim C10 -/

/-- Claim C10: when `createInstance` rejects (wallet present, `initSDK`
resolved), the single `initRelayer` run propagates that error, the
module-level cache stays unset (`_relayer` and `_ud_kp` both remain
`none`), and a subsequent call with working collaborators re-runs the full
initialization from scratch — issuing a fresh backend connect and keypair
generation — and only then caches the successfully created instance. -/
theorem c10_init_failure_atomic (env : InitEnv) (e : String)
    (hw : env.walletPresent = true)
    (hs : env.initSDK = .ok ())
    (hc : env.createInstance = .error e) :
    runSched [0, 0, 0] [(env, .start)] ⟨none, none⟩ ⟨0, 0⟩ =
      ([(env, .done (.error e))], ⟨none, none⟩, ⟨1, 0⟩)
    ∧ (∀ (env2 : InitEnv) (inst k c1 c2 : Nat),
        env2.walletPresent = true → env2.initSDK = .ok () →
        env2.createInstance = .ok inst → env2.generateKeypair = .ok k →
        runSched [0, 0, 0, 0] [(env2, .start)] ⟨none, none⟩ ⟨c1, c2⟩ =
          ([(env2, .done (.ok inst))], ⟨some inst, some k⟩,
            ⟨c1 + 1, c2 + 1⟩)) := by
  constructor
  · simp [runSched, stepTask, hw, hs, hc]
  · intro env2 inst k c1 c2 hw2 hs2 hc2 hk2
    simp [runSched, stepTask, hw2, hs2, hc2, hk2]

/-- Witness for C10: a failing connect leaves the cache empty with the
error surfaced, and the retry succeeds from scratch. -/
theorem c10_witness :
    runSched [0, 0, 0] [(envCreateFail, .start)] ⟨none, none⟩ ⟨0, 0⟩ =
      ([(envCreateFail, .done (.error "relayer connect refused"))],
        ⟨none, none⟩, ⟨1, 0⟩)
    ∧ runSched [0, 0, 0, 0] [(envGood 1, .start)] ⟨none, none⟩ ⟨1, 0⟩ =
      ([(envGood 1, .done (.ok 101))], ⟨some 101, some 201⟩, ⟨2, 1⟩) := by
  have h := c10_init_failure_atomic envCreateFail "relayer connect refused"
    rfl rfl rfl
  exact ⟨h.1, h.2 (envGood 1) 101 201 1 0 rfl rfl rfl rfl⟩

end Relayer
